import Mathlib

/-!
Verification of the process-supervision subsystem of the `spin` repository.

The development shallowly embeds the Go sources:
  * `internal/process/store.go` (and its duplicate `unnamed/part_002`):
    the JSON-backed durable process store;
  * `internal/process/manager.go`: the process manager (`findProcess`,
    `StartProcess`, `StopProcess`, `StopAll`, `WaitForAll`,
    `StartDockerProcess`, `updateDockerResourceUsage`);
  * `unnamed/part_004` (docker service manager): `waitForHealthy` and the
    container CPU/memory accounting.

Modelling conventions:
  * Go `float64` arithmetic is modelled over `ℚ` (the claimed CPU formula
    and its concrete instance are exact in both semantics).
  * Go maps are modelled as association lists; insertion replaces the
    binding of an existing key, iteration follows list order.
  * OS effects (signal-0 probes, tmux commands, file-system failures,
    `time.Now`) are oracles supplied through `World` / `StartEnv`
    parameters; the file system holding the store is explicit state.
  * Mutex acquisition/release is dropped: the embedding is the
    single-threaded semantics of each operation.
-/

namespace Spin

/-- Status enum `ProcessStatus` from `manager.go` (stopped/running/starting/error). -/
inductive ProcessStatus where
  | stopped
  | running
  | starting
  | error
deriving DecidableEq, Repr

/-- The `Type` tag on processes (`ProcessTypeDocker` in `manager.go`);
`tmuxKind` is the zero value used for session-backed processes. -/
inductive ProcessType where
  | tmuxKind
  | dockerKind
deriving DecidableEq, Repr

/-- Record type `ProcessInfo` from `store.go` / `part_002`, extended with the
`Type`/`ContainerID`/`Image` fields that `manager.go` stores into it.
`float64` fields are modelled as `ℚ`, timestamps as `Nat`. -/
structure ProcessInfo where
  name : String
  pid : Int := 0
  status : ProcessStatus := ProcessStatus.stopped
  workDir : String := ""
  cpuPercent : ℚ := 0
  memoryUsage : Nat := 0
  memoryPercent : ℚ := 0
  lastUpdated : Nat := 0
  ptype : ProcessType := ProcessType.tmuxKind
  containerID : String := ""
  image : String := ""
deriving DecidableEq, Repr

/-- The in-memory table `map[string]ProcessInfo`, as an association list. -/
abbrev Table := List (String × ProcessInfo)

/-- Go map read `processes[name]`. -/
def tableGet (t : Table) (k : String) : Option ProcessInfo :=
  (List.find? (fun p => p.1 = k) t).map Prod.snd

/-- Go map write `processes[name] = info`: replace an existing binding,
otherwise append. -/
def tableInsert (t : Table) (k : String) (v : ProcessInfo) : Table :=
  if (List.find? (fun p => p.1 = k) t).isSome then
    List.map (fun p => if p.1 = k then (k, v) else p) t
  else
    t ++ [(k, v)]

/-- Go map delete `delete(processes, name)`. -/
def tableDelete (t : Table) (k : String) : Table :=
  List.filter (fun p => p.1 ≠ k) t

/-- Contents of the canonical store file (`~/.spin/processes.json`).
File contents are modelled at the level of parsed tables: `corrupt`
stands for any bytes `json.Unmarshal` rejects, `unreadable` for a read
failure other than non-existence. -/
inductive StoreFile where
  | missing
  | unreadable
  | corrupt
  | table (t : Table)
deriving DecidableEq, Repr

/-- Errors surfaced by the store (`store.go`). -/
inductive StoreErr where
  | readErr
  | unmarshalErr
  | notFound (name : String)
deriving DecidableEq, Repr

/-- The file-system state the store manipulates: the canonical file plus
the temporary file at the canonical path + ".tmp". -/
structure Fs where
  canonical : StoreFile
  tmp : Option Table := none
deriving DecidableEq, Repr

namespace Store

/-- Source `Store.loadProcesses` (`store.go` lines 155-176): a missing file is an
empty table, an unreadable file is a read error, undecodable bytes are an
unmarshal error. -/
def loadProcesses : StoreFile → Except StoreErr Table
  | StoreFile.missing => Except.ok []
  | StoreFile.unreadable => Except.error StoreErr.readErr
  | StoreFile.corrupt => Except.error StoreErr.unmarshalErr
  | StoreFile.table t => Except.ok t

/-- First half of `Store.saveProcesses` (`store.go` lines 188-193): write
the full serialized table to the temporary file; the canonical file is
untouched. -/
def writeTmp (fs : Fs) (t : Table) : Fs :=
  { fs with tmp := some t }

/-- Second half of `Store.saveProcesses` (`store.go` lines 195-199):
rename the temporary file over the canonical path (atomic). -/
def renameTmp (_fs : Fs) (t : Table) : Fs :=
  { canonical := StoreFile.table t, tmp := none }

/-- The sequence of file-system states visible during one
`Store.saveProcesses` call: before, after the temp write, after rename. -/
def saveTrace (fs : Fs) (t : Table) : List Fs :=
  [fs, writeTmp fs t, renameTmp (writeTmp fs t) t]

/-- Source `Store.saveProcesses` (`store.go` lines 179-203) as a state
transformer: its final file-system state. (Serialization of our value
domain cannot fail, and both writes are modelled as succeeding.) -/
def saveProcesses (fs : Fs) (t : Table) : Fs :=
  renameTmp (writeTmp fs t) t

/-- Source `Store.SaveProcess` (`store.go` lines 55-71): on a load failure the
error is only logged and an empty table is substituted; the record is
upserted and the table persisted. -/
def SaveProcess (fs : Fs) (info : ProcessInfo) : Except StoreErr Unit × Fs :=
  match loadProcesses fs.canonical with
  | Except.error _ =>
      (Except.ok (), saveProcesses fs (tableInsert [] info.name info))
  | Except.ok ps =>
      (Except.ok (), saveProcesses fs (tableInsert ps info.name info))

/-- Source `Store.RemoveProcess` (`store.go` lines 73-87): load failures are
returned without writing; otherwise the name is deleted and the table
persisted (idempotent: deleting an absent name is not an error). -/
def RemoveProcess (fs : Fs) (name : String) : Except StoreErr Unit × Fs :=
  match loadProcesses fs.canonical with
  | Except.error e => (Except.error e, fs)
  | Except.ok ps => (Except.ok (), saveProcesses fs (tableDelete ps name))

/-- Source `Store.GetProcess` (`store.go` lines 89-110): load failures propagate;
an absent name is a not-found error. Read-only. -/
def GetProcess (fs : Fs) (name : String) : Except StoreErr ProcessInfo :=
  match loadProcesses fs.canonical with
  | Except.error e => Except.error e
  | Except.ok ps =>
      match tableGet ps name with
      | none => Except.error (StoreErr.notFound name)
      | some info => Except.ok info

/-- The loop body of `Store.ListProcesses` (`store.go` lines 125-143):
iterate the loaded entries; an entry with `pid > 0` is kept in the result
iff the signal-0 probe succeeds, otherwise `delete(processes, info.Name)`
prunes it from the table; entries with `pid ≤ 0` are skipped (left in the
table, absent from the result). `os.FindProcess` never fails on Unix, so
the probe is the only liveness test. -/
def pruneLoop (alive : Int → Bool) :
    List (String × ProcessInfo) → Table → List ProcessInfo →
    Table × List ProcessInfo
  | [], tbl, acc => (tbl, acc)
  | (_k, info) :: rest, tbl, acc =>
    if info.pid > 0 then
      if alive info.pid then pruneLoop alive rest tbl (acc ++ [info])
      else pruneLoop alive rest (tableDelete tbl info.name) acc
    else pruneLoop alive rest tbl acc

/-- Source `Store.ListProcesses` (`store.go` lines 113-152): load (errors
propagate without writing), prune dead `pid>0` entries, persist the pruned
table (a save failure is only logged), return the surviving records. -/
def ListProcesses (alive : Int → Bool) (fs : Fs) :
    Except StoreErr (List ProcessInfo) × Fs :=
  match loadProcesses fs.canonical with
  | Except.error e => (Except.error e, fs)
  | Except.ok ps =>
      let r := pruneLoop alive ps ps []
      (Except.ok r.2, saveProcesses fs r.1)

/-- Source `Store.Cleanup` (`store.go` lines 206-233): rebuild the table keeping
exactly the entries with `pid > 0` whose probe succeeds, and persist it. -/
def Cleanup (alive : Int → Bool) (fs : Fs) : Except StoreErr Unit × Fs :=
  match loadProcesses fs.canonical with
  | Except.error e => (Except.error e, fs)
  | Except.ok ps =>
      let cleaned := List.filter
        (fun p => decide (p.2.pid > 0) && alive p.2.pid) ps
      (Except.ok (), saveProcesses fs cleaned)

end Store

/-- The in-memory live handle (`Process` in `manager.go`). `pid` models
`Command.Process`: `some` holds the resolved tmux pane PID when the handle
was built by `findProcess`; for handles built by `StartProcess` the Go
`Command` field stores the finished `tmux new-session` client command, not
the pane PID, which we model as `none`. -/
structure Process where
  name : String
  pid : Option Int := none
  status : ProcessStatus := ProcessStatus.stopped
  outputFile : String := ""
  isDebug : Bool := false
  tmuxSession : String := ""
  cpuPercent : ℚ := 0
  memoryUsage : Nat := 0
  memoryPercent : ℚ := 0
  lastUpdated : Nat := 0
  ptype : ProcessType := ProcessType.tmuxKind
  containerID : String := ""
  image : String := ""
deriving DecidableEq, Repr

/-- The in-memory cache `map[string]*Process`. -/
abbrev PTable := List (String × Process)

/-- Read from the cache. -/
def ptableGet (t : PTable) (k : String) : Option Process :=
  (List.find? (fun p => p.1 = k) t).map Prod.snd

/-- Write to the cache (replace or append, Go map semantics). -/
def ptableInsert (t : PTable) (k : String) (v : Process) : PTable :=
  if (List.find? (fun p => p.1 = k) t).isSome then
    List.map (fun p => if p.1 = k then (k, v) else p) t
  else
    t ++ [(k, v)]

/-- Go map delete `delete(m.processes, name)`. -/
def ptableDelete (t : PTable) (k : String) : PTable :=
  List.filter (fun p => p.1 ≠ k) t

/-- Environment oracle for the OS effects the manager performs:
signal-0 probes, tmux pane queries (`tmux list-panes -t s -F #{pane_pid}`,
`none` = command failed / no such session), tmux session kills,
`getSpinDir` success, and the current time. -/
structure World where
  alive : Int → Bool
  tmuxPanes : String → Option String
  killSessionOk : String → Bool
  spinDirOk : Bool := true
  now : Nat := 0

/-- Outcomes of the external steps of `Manager.StartProcess` /
`Manager.StartDockerProcess` (directory creation, output-file open, tmux
setup, session creation, key sending, output piping). -/
structure StartEnv where
  mkdirOutputOk : Bool := true
  openOutputOk : Bool := true
  setupTmuxOk : Bool := true
  homeDirOk : Bool := true
  createSessionOk : Bool := true
  sendKeysOk : Bool := true
  pipeOk : Bool := true

/-- Errors of `Manager.findProcess`. In the spec's error taxonomy (§7),
`store (notFound _)` is NotFound and both `notRunning` (failed signal-0
probe) and `noTmuxSession` (pane resolution failed) are NotRunning. -/
inductive FindErr where
  | store (e : StoreErr)
  | notRunning
  | spinDirFailed
  | noTmuxSession
  | parsePanePid
deriving DecidableEq, Repr

/-- Errors of `Manager.StartProcess` / `Manager.StartDockerProcess`. -/
inductive StartErr where
  | alreadyRunning (name : String)
  | spinDirFailed
  | mkdirOutput
  | openOutput
  | setupTmuxFailed
  | homeDir
  | createSession
  | sendKeys
  | pipeOutput
  | listPanes
  | parsePanePid
deriving DecidableEq, Repr

/-- Warnings that `manager.go` prints (`debugf("Warning: ...")`) while
continuing. -/
inductive Warning where
  | killSessionFailed
  | removeFailed
  | saveFailed
deriving DecidableEq, Repr

/-- The mutable state of the `Manager` singleton plus the store's file
system. `wg` is the counter of the manager's `sync.WaitGroup`. -/
structure MState where
  processes : PTable := []
  fs : Fs
  wg : Nat := 0
deriving Repr

/-- The `~/.spin` path returned by `getSpinDir` (abstract placeholder for
the home-relative path). -/
def spinDirPath : String := "~/.spin"

/-- The deterministic session name: `fmt.Sprintf("spin-%s", name)`. -/
def sessionNameOf (name : String) : String := "spin-" ++ name

/-- ASCII whitespace as cut by `strings.TrimSpace`. -/
def isSpaceChar (c : Char) : Bool :=
  c = ' ' || c = '\t' || c = '\n' || c = '\r'

/-- Model of `strings.TrimSpace` on the character list of the output. -/
def trimChars (l : List Char) : List Char :=
  ((List.dropWhile isSpaceChar l).reverse.dropWhile isSpaceChar).reverse

/-- Accumulate decimal digits; any non-digit fails. -/
def digitsVal : List Char → Nat → Option Nat
  | [], acc => some acc
  | c :: cs, acc =>
    if c.isDigit then digitsVal cs (acc * 10 + (c.toNat - 48))
    else none

/-- Model of `strconv.Atoi` applied to the `strings.TrimSpace`d
`list-panes` output: an optional sign followed by one or more decimal
digits. -/
def parsePid (out : String) : Option Int :=
  match trimChars out.data with
  | [] => none
  | '-' :: cs =>
    if cs.isEmpty then none
    else Option.map (fun n => -(n : Int)) (digitsVal cs 0)
  | '+' :: cs =>
    if cs.isEmpty then none
    else Option.map (fun n => (n : Int)) (digitsVal cs 0)
  | cs => Option.map (fun n => (n : Int)) (digitsVal cs 0)

/-- Source `isDebugCommand` (`manager.go` lines 130-140). -/
def isDebugCommand (command : String) (args : List String) : Bool :=
  match args with
  | a0 :: rest =>
    command = "bundle" && a0 = "exec" &&
      (match rest with
       | a1 :: _ => a1 = "rails" || a1 = "irb" || a1 = "pry"
       | [] => false)
  | [] => false

namespace Manager

/-- Source `Manager.findProcess` (`manager.go` lines 143-228). Steps when the
name is not cached: fetch the record from the store (errors propagate);
probe the stored PID with signal 0 (`os.FindProcess` cannot fail on
Unix) and on failure remove the record from the store (its error is
ignored) and fail NotRunning; resolve the spin directory; query tmux for
the pane PID of session `spin-<name>` (failure = no session = fail
NotRunning); parse the PID; build a handle carrying the record's stored
resource fields and cache it. -/
def findProcess (w : World) (s : MState) (name : String) :
    Except FindErr Process × MState :=
  match ptableGet s.processes name with
  | some p => (Except.ok p, s)
  | none =>
    match Store.GetProcess s.fs name with
    | Except.error e => (Except.error (FindErr.store e), s)
    | Except.ok info =>
      if w.alive info.pid then
        if w.spinDirOk then
          let sessionName := sessionNameOf name
          match w.tmuxPanes sessionName with
          | none => (Except.error FindErr.noTmuxSession, s)
          | some out =>
            match parsePid out with
            | none => (Except.error FindErr.parsePanePid, s)
            | some pid =>
              let p : Process :=
                { name := info.name
                  pid := some pid
                  status := info.status
                  outputFile :=
                    spinDirPath ++ "/output/" ++ name ++ ".log"
                  tmuxSession := sessionName
                  cpuPercent := info.cpuPercent
                  memoryUsage := info.memoryUsage
                  memoryPercent := info.memoryPercent
                  lastUpdated := info.lastUpdated }
              (Except.ok p,
               { s with processes := ptableInsert s.processes name p })
        else (Except.error FindErr.spinDirFailed, s)
      else
        (Except.error FindErr.notRunning,
         { s with fs := (Store.RemoveProcess s.fs name).2 })

/-- The external preparation steps of `Manager.StartProcess`, in source
order (`manager.go` lines 241-341): resolve the spin directory, create
the output directory, open the output file, set up tmux, resolve the
home directory for the config path, create the session, send the command
keys, attach `pipe-pane`; the first failing step aborts the start. -/
def startChecks (e : StartEnv) (w : World) : Option StartErr :=
  if ¬ w.spinDirOk then some StartErr.spinDirFailed
  else if ¬ e.mkdirOutputOk then some StartErr.mkdirOutput
  else if ¬ e.openOutputOk then some StartErr.openOutput
  else if ¬ e.setupTmuxOk then some StartErr.setupTmuxFailed
  else if ¬ e.homeDirOk then some StartErr.homeDir
  else if ¬ e.createSessionOk then some StartErr.createSession
  else if ¬ e.sendKeysOk then some StartErr.sendKeys
  else if ¬ e.pipeOk then some StartErr.pipeOutput
  else none

/-- The handle `StartProcess` caches (`manager.go` lines 343-357):
running, zeroed resource fields, the session and output-file names. -/
def startHandle (w : World) (name command : String) (args : List String) :
    Process :=
  { name := name
    status := ProcessStatus.running
    outputFile := spinDirPath ++ "/output/" ++ name ++ ".log"
    isDebug := isDebugCommand command args
    tmuxSession := sessionNameOf name
    cpuPercent := 0
    memoryUsage := 0
    memoryPercent := 0
    lastUpdated := w.now }

/-- The tail of `Manager.StartProcess` (`manager.go` lines 359-388), run
after the handle has been cached in `s1`: resolve the pane PID of the
new session (failures abort, leaving the cache entry in place), then
persist a running record with that PID (a save failure is only warned
about). -/
def startFinish (w : World) (s1 : MState) (name workDir : String) :
    Except StartErr Unit × List Warning × MState :=
  match w.tmuxPanes (sessionNameOf name) with
  | none => (Except.error StartErr.listPanes, [], s1)
  | some out =>
    match parsePid out with
    | none => (Except.error StartErr.parsePanePid, [], s1)
    | some pid =>
      let r := Store.SaveProcess s1.fs
        { name := name
          pid := pid
          status := ProcessStatus.running
          workDir := workDir }
      let warns := match r.1 with
        | Except.error _ => [Warning.saveFailed]
        | Except.ok _ => []
      (Except.ok (), warns, { s1 with fs := r.2 })

/-- Source `Manager.StartProcess` (`manager.go` lines 231-389). The duplicate
guard (lines 237-239) consults only the in-memory map; then the
preparation steps run, the handle is cached (line 357, before PID
resolution), and `startFinish` resolves the PID and persists the
record. -/
def StartProcess (e : StartEnv) (w : World) (s : MState)
    (name command : String) (args : List String) (workDir : String) :
    Except StartErr Unit × List Warning × MState :=
  if (ptableGet s.processes name).isSome then
    (Except.error (StartErr.alreadyRunning name), [], s)
  else
    match startChecks e w with
    | some err => (Except.error err, [], s)
    | none =>
      startFinish w
        { s with processes :=
            ptableInsert s.processes name (startHandle w name command args) }
        name workDir

/-- Result of `Manager.StopProcess`: the returned error (if any), the
warnings printed along the way, and the final state. -/
structure StopResult where
  result : Except FindErr Unit
  warnings : List Warning
  state : MState

/-- Source `Manager.StopProcess` (`manager.go` lines 465-498): resolve a handle
via `findProcess` (errors propagate); kill the tmux session when the
handle names one (a failure is only warned about); close the output
writer; remove the store record (a failure is only warned about, line
489); evict the cache entry; return success. -/
def StopProcess (w : World) (s : MState) (name : String) : StopResult :=
  match findProcess w s name with
  | (Except.error e, s1) => ⟨Except.error e, [], s1⟩
  | (Except.ok p, s1) =>
    let killWarns :=
      if p.tmuxSession ≠ "" && !(w.killSessionOk p.tmuxSession) then
        [Warning.killSessionFailed]
      else []
    let r := Store.RemoveProcess s1.fs name
    let remWarns := match r.1 with
      | Except.error _ => [Warning.removeFailed]
      | Except.ok _ => []
    ⟨Except.ok (), killWarns ++ remWarns,
     { s1 with fs := r.2, processes := ptableDelete s1.processes name }⟩

/-- Source `Manager.StopAll` (`manager.go` lines 500-514): snapshot the cached
names, stop each (errors ignored), then `wg.Wait()` (which does not
change any state). -/
def StopAll (w : World) (s : MState) : MState :=
  List.foldl (fun st n => (StopProcess w st n).state) s
    (List.map Prod.fst s.processes)

/-- Semantics of `sync.WaitGroup.Wait` on the manager's `wg` field, as
used by `Manager.WaitForAll` (`manager.go` lines 686-689) and by the
final wait of `StopAll` (line 513): the call returns immediately iff the
counter is zero, and blocks until it reaches zero otherwise. -/
def waitReturnsImmediately (s : MState) : Prop := s.wg = 0

/-- Source `Manager.GetProcessStatus` (`manager.go` lines 531-537). -/
def GetProcessStatus (w : World) (s : MState) (name : String) :
    Except FindErr ProcessStatus × MState :=
  match findProcess w s name with
  | (Except.error e, s1) => (Except.error e, s1)
  | (Except.ok p, s1) => (Except.ok p.status, s1)

/-- The spin-directory preparation steps of `StartDockerProcess`
(`manager.go` lines 705-721): resolve the spin directory, create the
output directory, open the output file. -/
def dockerChecks (e : StartEnv) (w : World) : Option StartErr :=
  if ¬ w.spinDirOk then some StartErr.spinDirFailed
  else if ¬ e.mkdirOutputOk then some StartErr.mkdirOutput
  else if ¬ e.openOutputOk then some StartErr.openOutput
  else none

/-- The record `StartDockerProcess` persists (`manager.go` lines
740-747): `Pid` is left at its zero value. -/
def dockerInfo (w : World) (name containerID image : String) :
    ProcessInfo :=
  { name := name
    status := ProcessStatus.running
    ptype := ProcessType.dockerKind
    containerID := containerID
    image := image
    lastUpdated := w.now }

/-- The tail of `StartDockerProcess`: cache the docker handle
(`NewDockerProcess`, lines 59-68 and 703-737) and persist the record
(a save failure is only warned about). -/
def startDockerFinish (w : World) (s : MState)
    (name containerID image : String) :
    Except StartErr Unit × List Warning × MState :=
  let p : Process :=
    { name := name
      status := ProcessStatus.running
      ptype := ProcessType.dockerKind
      containerID := containerID
      image := image
      lastUpdated := w.now
      outputFile := spinDirPath ++ "/output/" ++ name ++ ".log" }
  let s1 : MState := { s with processes := ptableInsert s.processes name p }
  let r := Store.SaveProcess s1.fs (dockerInfo w name containerID image)
  let warns := match r.1 with
    | Except.error _ => [Warning.saveFailed]
    | Except.ok _ => []
  (Except.ok (), warns, { s1 with fs := r.2 })

/-- Source `Manager.StartDockerProcess` (`manager.go` lines 692-755): duplicate
guard against the in-memory map only, then the spin-directory steps
(`dockerChecks`, lines 705-721), then cache-and-persist. -/
def StartDockerProcess (e : StartEnv) (w : World) (s : MState)
    (name containerID image : String) :
    Except StartErr Unit × List Warning × MState :=
  if (ptableGet s.processes name).isSome then
    (Except.error (StartErr.alreadyRunning name), [], s)
  else
    match dockerChecks e w with
    | some err => (Except.error err, [], s)
    | none => startDockerFinish w s name containerID image

end Manager

/-- Manager states reachable from `GetManager`'s initial state (empty
cache, zero-valued `WaitGroup`, any store file on disk) by the embedded
operations. -/
inductive Reachable : MState → Prop where
  | init (fs : Fs) : Reachable { fs := fs }
  | find (w : World) (name : String) {s : MState} :
      Reachable s → Reachable (Manager.findProcess w s name).2
  | start (e : StartEnv) (w : World)
      (name command : String) (args : List String) (workDir : String)
      {s : MState} :
      Reachable s →
      Reachable (Manager.StartProcess e w s name command args workDir).2.2
  | stop (w : World) (name : String) {s : MState} :
      Reachable s → Reachable (Manager.StopProcess w s name).state
  | stopAll (w : World) {s : MState} :
      Reachable s → Reachable (Manager.StopAll w s)
  | startDocker (e : StartEnv) (w : World)
      (name containerID image : String) {s : MState} :
      Reachable s →
      Reachable (Manager.StartDockerProcess e w s name containerID image).2.2

namespace Docker

/-- Truncating `uint64` subtraction, as in Go's `a - b` on `uint64`
before the conversion to `float64`. -/
def u64sub (a b : Nat) : Nat :=
  ((a % 2 ^ 64) + 2 ^ 64 - (b % 2 ^ 64)) % 2 ^ 64

/-- One cumulative container CPU sample (`types.StatsJSON`): the
container's `CPUStats.CPUUsage.TotalUsage`, the host's
`CPUStats.SystemUsage` (both cumulative nanoseconds, `uint64`), and
`len(CPUStats.CPUUsage.PercpuUsage)` (the per-CPU breakdown length used
as the CPU count). -/
structure CPUSample where
  totalUsage : Nat
  systemUsage : Nat
  percpuLen : Nat
deriving DecidableEq, Repr

/-- The CPU-percentage computation of `Manager.updateDockerResourceUsage`
(`manager.go` lines 630-636): deltas between the pre and current samples;
`(cpuDelta / systemDelta) * numCPUs * 100` when both deltas are positive,
`0` otherwise. -/
def cpuPercentOf (pre cur : CPUSample) : ℚ :=
  let cpuDelta : ℚ := (u64sub cur.totalUsage pre.totalUsage : Nat)
  let systemDelta : ℚ := (u64sub cur.systemUsage pre.systemUsage : Nat)
  if systemDelta > 0 ∧ cpuDelta > 0 then
    (cpuDelta / systemDelta) * (cur.percpuLen : ℚ) * 100
  else 0

/-- The memory-percentage computation of `updateDockerResourceUsage`
(`manager.go` line 641): `usage / limit * 100`. -/
def memoryPercentOf (usage limit : Nat) : ℚ :=
  (usage : ℚ) / (limit : ℚ) * 100

/-- Config struct `config.HealthCheckConfig` (`unnamed/part_007`). -/
structure HealthCheckConfig where
  command : List String := []
  interval : String := ""
  timeout : String := ""
  retries : Nat := 0
  startPeriod : String := ""
deriving DecidableEq, Repr

/-- Errors of `waitForHealthy`. -/
inductive HealthErr where
  | inspectFailed (msg : String)
  | timedOut
deriving DecidableEq, Repr

/-- The polling loop of `ServiceManager.waitForHealthy`
(`unnamed/part_004` lines 393-413), in discrete one-second time: with the
deadline `timeout` seconds away, the loop body runs at t = 0, 1, …,
timeout-1 (each non-final iteration sleeps one second). An inspect error
aborts; a container with no health state is immediately healthy; status
"healthy" succeeds; anything else retries; an exhausted deadline is the
health-check-timeout error. -/
def whLoop (inspect : Nat → Except String (Option String)) :
    Nat → Nat → Except HealthErr Unit
  | _, 0 => Except.error HealthErr.timedOut
  | t, fuel + 1 =>
    match inspect t with
    | Except.error e => Except.error (HealthErr.inspectFailed e)
    | Except.ok none => Except.ok ()
    | Except.ok (some st) =>
      if st = "healthy" then Except.ok ()
      else whLoop inspect (t + 1) fuel

/-- Source `ServiceManager.waitForHealthy` (`unnamed/part_004` lines 382-416):
a nil health-check spec succeeds immediately; otherwise the timeout is
`time.ParseDuration(StartPeriod)` (modelled by the `parseDuration`
oracle, in whole seconds), defaulting to 60 seconds when the parse
fails, and the polling loop runs against that deadline. -/
def waitForHealthy (parseDuration : String → Option Nat)
    (inspect : Nat → Except String (Option String))
    (hc : Option HealthCheckConfig) : Except HealthErr Unit :=
  match hc with
  | none => Except.ok ()
  | some cfg =>
    let timeout := (parseDuration cfg.startPeriod).getD 60
    whLoop inspect 0 timeout

end Docker

/-! Derived notions used to state properties (not part of the source). -/

/-- A store entry that `Store.ListProcesses` prunes: `pid > 0` and the
signal-0 probe fails. -/
def deadKey (alive : Int → Bool) (p : String × ProcessInfo) : Bool :=
  decide (p.2.pid > 0) && !(alive p.2.pid)

/-- A store entry that `Store.ListProcesses` returns: `pid > 0` and the
signal-0 probe succeeds. -/
def liveKey (alive : Int → Bool) (p : String × ProcessInfo) : Bool :=
  decide (p.2.pid > 0) && alive p.2.pid

/-- The `Name` fields that the pruning loop passes to `delete`. -/
def deadNames (alive : Int → Bool) (l : List (String × ProcessInfo)) :
    List String :=
  List.map (fun p => p.2.name) (List.filter (deadKey alive) l)

/-- Well-formedness of a store table: every record's `Name` field equals
its key (true of every table the store itself writes, since `SaveProcess`
keys records by `info.Name`), and keys are unique (true of every table
decoded from a JSON object). -/
def wfTable (t : Table) : Prop :=
  (∀ p ∈ t, p.2.name = p.1) ∧ List.Nodup (List.map Prod.fst t)

/-! Concrete fixtures used by witnesses and counterexamples (not part of
the source). -/

/-- A running session-backed record as `StartProcess` would persist it. -/
def webInfo : ProcessInfo :=
  { name := "web", pid := 42, status := ProcessStatus.running }

/-- A store holding only `webInfo` under its name. -/
def webFs : Fs := { canonical := StoreFile.table [("web", webInfo)] }

/-- A fresh invocation's manager state over `webFs`: empty cache. -/
def webState : MState := { fs := webFs }

/-- A world where pid 42 is alive and session `spin-web` has pane PID
123. -/
def liveWorld : World :=
  { alive := fun p => p == 42
    tmuxPanes := fun q => if q = "spin-web" then some "123" else none
    killSessionOk := fun _ => true }

/-- A world where no pid is alive and no session exists. -/
def deadWorld : World :=
  { alive := fun _ => false
    tmuxPanes := fun _ => none
    killSessionOk := fun _ => true }

/-- A cached live handle for `web`. -/
def webHandle : Process := { name := "web", tmuxSession := "spin-web" }

/-- A manager state whose cache holds `webHandle` but whose store file
is unparseable. -/
def corruptState : MState :=
  { processes := [("web", webHandle)]
    fs := { canonical := StoreFile.corrupt } }

/-! Theorems. -/

/-- C6: for consecutive container CPU samples the computed CPU percentage
is `(cpuDelta / systemDelta) * numCPUs * 100` when both deltas are
positive and `0` otherwise; the concrete instance `cpuDelta = 2·10⁸ ns`,
`systemDelta = 10⁹ ns`, `numCPUs = 4` yields exactly `80`; memory
percentage is `usage / limit * 100`. -/
theorem docker_cpu_accounting (pre cur : Docker.CPUSample)
    (usage limit : Nat) :
    (∀ cpuDelta systemDelta : ℚ,
      cpuDelta = (Docker.u64sub cur.totalUsage pre.totalUsage : Nat) →
      systemDelta = (Docker.u64sub cur.systemUsage pre.systemUsage : Nat) →
      (cpuDelta > 0 → systemDelta > 0 →
        Docker.cpuPercentOf pre cur =
          (cpuDelta / systemDelta) * (cur.percpuLen : ℚ) * 100) ∧
      (¬ (systemDelta > 0 ∧ cpuDelta > 0) →
        Docker.cpuPercentOf pre cur = 0)) ∧
    Docker.cpuPercentOf ⟨0, 0, 4⟩ ⟨200000000, 1000000000, 4⟩ = 80 ∧
    Docker.memoryPercentOf usage limit = (usage : ℚ) / (limit : ℚ) * 100 := by
  refine ⟨?_, ?_, rfl⟩
  · rintro cpuDelta systemDelta rfl rfl
    constructor
    · intro hc hs
      rw [Docker.cpuPercentOf, if_pos ⟨hs, hc⟩]
    · intro h
      rw [Docker.cpuPercentOf, if_neg (fun hx => h ⟨hx.1, hx.2⟩)]
  · norm_num [Docker.cpuPercentOf, Docker.u64sub]

/-- C6 witness: the positive-delta branch at the concrete sample pair. -/
theorem docker_cpu_accounting_witness :
    Docker.cpuPercentOf ⟨0, 0, 4⟩ ⟨200000000, 1000000000, 4⟩ =
      ((200000000 : ℚ) / (1000000000 : ℚ)) * ((4 : Nat) : ℚ) * 100 :=
  ((docker_cpu_accounting ⟨0, 0, 4⟩ ⟨200000000, 1000000000, 4⟩ 0 0).1
      ((Docker.u64sub 200000000 0 : Nat) : ℚ)
      ((Docker.u64sub 1000000000 0 : Nat) : ℚ) (by norm_num [Docker.u64sub])
      (by norm_num [Docker.u64sub])).1 (by norm_num [Docker.u64sub])
    (by norm_num [Docker.u64sub])

/-- If the container reports only non-"healthy" statuses for the full
deadline, the polling loop times out. -/
theorem whLoop_timeout_of_unhealthy
    (ins : Nat → Except String (Option String)) :
    ∀ (fuel t : Nat),
      (∀ i, i < fuel →
        ∃ st, ins (t + i) = Except.ok (some st) ∧ st ≠ "healthy") →
      Docker.whLoop ins t fuel = Except.error Docker.HealthErr.timedOut := by
  intro fuel
  induction fuel with
  | zero => intro t _; rfl
  | succ f ih =>
    intro t h
    obtain ⟨st, hst, hne⟩ := h 0 (Nat.succ_pos f)
    rw [Nat.add_zero] at hst
    rw [Docker.whLoop, hst]
    simp only [if_neg hne]
    exact ih (t + 1) (fun i hi => by
      have e : t + 1 + i = t + (i + 1) := by omega
      rw [e]
      exact h (i + 1) (Nat.succ_lt_succ hi))

/-- If the status becomes "healthy" strictly before the deadline (with
only non-"healthy" statuses before that), the polling loop succeeds. -/
theorem whLoop_ok_of_healthy
    (ins : Nat → Except String (Option String)) :
    ∀ (k t fuel : Nat), k < fuel →
      (∀ i, i < k →
        ∃ st, ins (t + i) = Except.ok (some st) ∧ st ≠ "healthy") →
      ins (t + k) = Except.ok (some "healthy") →
      Docker.whLoop ins t fuel = Except.ok () := by
  intro k
  induction k with
  | zero =>
    intro t fuel hlt _ hk
    obtain ⟨f, rfl⟩ := Nat.exists_eq_succ_of_ne_zero (Nat.pos_iff_ne_zero.mp hlt)
    rw [Nat.add_zero] at hk
    rw [Docker.whLoop, hk]
    simp
  | succ k ih =>
    intro t fuel hlt hpre hk
    obtain ⟨f, rfl⟩ := Nat.exists_eq_succ_of_ne_zero
      (Nat.pos_iff_ne_zero.mp (Nat.lt_of_le_of_lt (Nat.zero_le _) hlt))
    obtain ⟨st, hst, hne⟩ := hpre 0 (Nat.succ_pos k)
    rw [Nat.add_zero] at hst
    rw [Docker.whLoop, hst]
    simp only [if_neg hne]
    refine ih (t + 1) f (Nat.lt_of_succ_lt_succ hlt)
      (fun i hi => ?_) ?_
    · have e : t + 1 + i = t + (i + 1) := by omega
      rw [e]
      exact hpre (i + 1) (Nat.succ_lt_succ hi)
    · have e : t + 1 + k = t + (k + 1) := by omega
      rw [e]
      exact hk

/-- C7: `waitForHealthy` succeeds immediately on a nil health-check spec
or when the runtime reports no health state; it succeeds as soon as a
poll sees "healthy" before the start-period deadline; it fails with the
health-check-timeout error when no poll within the deadline is healthy;
and an unparseable start-period falls back to a 60-second deadline. -/
theorem waitForHealthy_spec (pd : String → Option Nat)
    (ins : Nat → Except String (Option String))
    (cfg : Docker.HealthCheckConfig) :
    (Docker.waitForHealthy pd ins none = Except.ok ()) ∧
    ((pd cfg.startPeriod).getD 60 > 0 → ins 0 = Except.ok none →
      Docker.waitForHealthy pd ins (some cfg) = Except.ok ()) ∧
    (∀ k, k < (pd cfg.startPeriod).getD 60 →
      (∀ i, i < k →
        ∃ st, ins i = Except.ok (some st) ∧ st ≠ "healthy") →
      ins k = Except.ok (some "healthy") →
      Docker.waitForHealthy pd ins (some cfg) = Except.ok ()) ∧
    ((∀ i, i < (pd cfg.startPeriod).getD 60 →
        ∃ st, ins i = Except.ok (some st) ∧ st ≠ "healthy") →
      Docker.waitForHealthy pd ins (some cfg) =
        Except.error Docker.HealthErr.timedOut) ∧
    (pd cfg.startPeriod = none →
      Docker.waitForHealthy pd ins (some cfg) = Docker.whLoop ins 0 60) := by
  refine ⟨rfl, ?_, ?_, ?_, ?_⟩
  · intro hpos h0
    obtain ⟨f, hf⟩ := Nat.exists_eq_succ_of_ne_zero (Nat.pos_iff_ne_zero.mp hpos)
    rw [Docker.waitForHealthy, hf, Docker.whLoop, h0]
  · intro k hk hpre hhealthy
    rw [Docker.waitForHealthy]
    exact whLoop_ok_of_healthy ins k 0 _ hk
      (fun i hi => by simpa using hpre i hi) (by simpa using hhealthy)
  · intro h
    rw [Docker.waitForHealthy]
    exact whLoop_timeout_of_unhealthy ins _ 0
      (fun i hi => by simpa using h i hi)
  · intro h
    rw [Docker.waitForHealthy, h]
    rfl

/-- C7 witness: a health check whose 2-second start-period elapses with
the container never healthy times out. -/
theorem waitForHealthy_spec_witness :
    Docker.waitForHealthy (fun s => if s = "2s" then some 2 else none)
      (fun _ => Except.ok (some "starting"))
      (some { startPeriod := "2s" }) =
      Except.error Docker.HealthErr.timedOut :=
  (waitForHealthy_spec (fun s => if s = "2s" then some 2 else none)
      (fun _ => Except.ok (some "starting"))
      { startPeriod := "2s" }).2.2.2.1
    (fun _ _ => ⟨"starting", rfl, by decide⟩)

/-- C3: every persisting write goes through `saveProcesses`, which first
writes the complete new table to the temporary file (leaving the
canonical file untouched) and then renames it over the canonical path;
at every point of the trace the canonical file holds either the complete
old contents or the complete new table. -/
theorem saveProcesses_atomic (fs : Fs) (t : Table) :
    (∀ x ∈ Store.saveTrace fs t,
      x.canonical = fs.canonical ∨ x.canonical = StoreFile.table t) ∧
    (Store.saveProcesses fs t = (Store.saveTrace fs t).getLast (by
      simp [Store.saveTrace])) ∧
    (Store.saveProcesses fs t).canonical = StoreFile.table t ∧
    (Store.writeTmp fs t).canonical = fs.canonical ∧
    (∀ info, ∃ t2, (Store.SaveProcess fs info).2 = Store.saveProcesses fs t2) ∧
    (∀ name, (Store.RemoveProcess fs name).2 = fs ∨
      ∃ t2, (Store.RemoveProcess fs name).2 = Store.saveProcesses fs t2) ∧
    (∀ alive, (Store.ListProcesses alive fs).2 = fs ∨
      ∃ t2, (Store.ListProcesses alive fs).2 = Store.saveProcesses fs t2) ∧
    (∀ alive, (Store.Cleanup alive fs).2 = fs ∨
      ∃ t2, (Store.Cleanup alive fs).2 = Store.saveProcesses fs t2) := by
  refine ⟨?_, rfl, rfl, rfl, ?_, ?_, ?_, ?_⟩
  · intro x hx
    simp only [Store.saveTrace, List.mem_cons, List.not_mem_nil, or_false]
      at hx
    rcases hx with rfl | rfl | rfl
    · exact Or.inl rfl
    · exact Or.inl rfl
    · exact Or.inr rfl
  · intro info
    rw [Store.SaveProcess]
    cases Store.loadProcesses fs.canonical with
    | error e => exact ⟨_, rfl⟩
    | ok ps => exact ⟨_, rfl⟩
  · intro name
    rw [Store.RemoveProcess]
    cases Store.loadProcesses fs.canonical with
    | error e => exact Or.inl rfl
    | ok ps => exact Or.inr ⟨_, rfl⟩
  · intro alive
    rw [Store.ListProcesses]
    cases Store.loadProcesses fs.canonical with
    | error e => exact Or.inl rfl
    | ok ps => exact Or.inr ⟨_, rfl⟩
  · intro alive
    rw [Store.Cleanup]
    cases Store.loadProcesses fs.canonical with
    | error e => exact Or.inl rfl
    | ok ps => exact Or.inr ⟨_, rfl⟩

/-- C3 witness: the mid-trace state (temp file written, rename pending)
still shows the complete old table in the canonical file. -/
theorem saveProcesses_atomic_witness :
    (Store.writeTmp { canonical := StoreFile.table [("web", { name := "web" })] }
        [("db", { name := "db" })]).canonical =
      (({ canonical := StoreFile.table [("web", { name := "web" })] } : Fs)).canonical ∨
    (Store.writeTmp { canonical := StoreFile.table [("web", { name := "web" })] }
        [("db", { name := "db" })]).canonical =
      StoreFile.table [("db", { name := "db" })] :=
  (saveProcesses_atomic { canonical := StoreFile.table [("web", { name := "web" })] }
      [("db", { name := "db" })]).1 _ (by simp [Store.saveTrace])

/-- C9: on a store file whose contents fail to load, `SaveProcess`
silently substitutes an empty table and persists only the record being
saved (discarding everything previously stored) while returning success;
`GetProcess`, `RemoveProcess` and `ListProcesses` propagate the same load
failure as an error without writing. -/
theorem saveProcess_on_corrupt_store (fs : Fs) (info : ProcessInfo)
    (name : String) (alive : Int → Bool)
    (h : fs.canonical = StoreFile.corrupt) :
    Store.SaveProcess fs info =
      (Except.ok (), Store.saveProcesses fs [(info.name, info)]) ∧
    (Store.SaveProcess fs info).2.canonical =
      StoreFile.table [(info.name, info)] ∧
    Store.GetProcess fs name = Except.error StoreErr.unmarshalErr ∧
    Store.RemoveProcess fs name = (Except.error StoreErr.unmarshalErr, fs) ∧
    Store.ListProcesses alive fs = (Except.error StoreErr.unmarshalErr, fs) := by
  refine ⟨?_, ?_, ?_, ?_, ?_⟩ <;>
    simp [Store.SaveProcess, Store.GetProcess, Store.RemoveProcess,
      Store.ListProcesses, Store.loadProcesses, h, tableInsert,
      Store.saveProcesses, Store.renameTmp]

/-- C9 witness: a concrete corrupt store with the behaviors above. -/
theorem saveProcess_on_corrupt_store_witness :
    Store.SaveProcess { canonical := StoreFile.corrupt, tmp := none }
        { name := "web", pid := 42 } =
      (Except.ok (),
       Store.saveProcesses { canonical := StoreFile.corrupt, tmp := none }
         [("web", { name := "web", pid := 42 })]) ∧
    (Store.SaveProcess { canonical := StoreFile.corrupt, tmp := none }
        { name := "web", pid := 42 }).2.canonical =
      StoreFile.table [("web", { name := "web", pid := 42 })] ∧
    Store.GetProcess { canonical := StoreFile.corrupt, tmp := none } "db" =
      Except.error StoreErr.unmarshalErr ∧
    Store.RemoveProcess { canonical := StoreFile.corrupt, tmp := none } "db" =
      (Except.error StoreErr.unmarshalErr,
       { canonical := StoreFile.corrupt, tmp := none }) ∧
    Store.ListProcesses (fun _ => true)
        { canonical := StoreFile.corrupt, tmp := none } =
      (Except.error StoreErr.unmarshalErr,
       { canonical := StoreFile.corrupt, tmp := none }) :=
  saveProcess_on_corrupt_store { canonical := StoreFile.corrupt, tmp := none }
    { name := "web", pid := 42 } "db" (fun _ => true) rfl

/-! Helper lemmas shared by the claim theorems. -/

/-- Characterization of the pruning loop: the final table is the initial
table minus the keys named by dead entries, and the result accumulates
the live entries in order. -/
theorem pruneLoop_spec (alive : Int → Bool) :
    ∀ (l : List (String × ProcessInfo)) (tbl : Table)
      (acc : List ProcessInfo),
      Store.pruneLoop alive l tbl acc =
        (List.filter (fun p => !((deadNames alive l).contains p.1)) tbl,
         acc ++ List.map Prod.snd (List.filter (liveKey alive) l)) := by
  intro l
  induction l with
  | nil =>
    intro tbl acc
    simp [Store.pruneLoop, deadNames]
  | cons hd rest ih =>
    intro tbl acc
    obtain ⟨k, info⟩ := hd
    rw [Store.pruneLoop]
    by_cases hpid : info.pid > 0
    · by_cases hal : alive info.pid = true
      · rw [if_pos hpid, if_pos hal, ih]
        have hd : deadKey alive (k, info) = false := by
          simp [deadKey, hal]
        have hl : liveKey alive (k, info) = true := by
          simp [liveKey, hal, hpid]
        simp [deadNames, hd, hl]
      · rw [if_pos hpid, if_neg (by simpa using hal), ih]
        have hdk : deadKey alive (k, info) = true := by
          simp [deadKey, hpid, hal]
        have hl : liveKey alive (k, info) = false := by
          simp [liveKey, hal]
        simp only [deadNames, List.filter_cons, hdk, hl, if_pos,
          List.map_cons, List.filter_filter, tableDelete]
        refine congrArg₂ Prod.mk ?_ ?_
        · apply List.filter_congr
          intro x _
          simp only [List.contains_cons, Bool.not_or, ne_eq, decide_not]
          rw [Bool.and_comm]
          rfl
        · simp
    · rw [if_neg hpid, ih]
      have hdk : deadKey alive (k, info) = false := by
        simp [deadKey, hpid]
      have hl : liveKey alive (k, info) = false := by
        simp [liveKey, hpid]
      simp [deadNames, hdk, hl]

/-- Unique keys make entries with equal keys equal. -/
theorem keyInj {t : Table} (hwf : wfTable t) :
    ∀ p ∈ t, ∀ q ∈ t, p.1 = q.1 → p = q :=
  fun _ hp _ hq h => List.inj_on_of_nodup_map hwf.2 hp hq h

/-- On a well-formed table, a key is among the dead names iff its own
entry is dead. -/
theorem deadNames_mem {alive : Int → Bool} {t : Table} (hwf : wfTable t) :
    ∀ p ∈ t,
      ((deadNames alive t).contains p.1 = true ↔ deadKey alive p = true) := by
  intro p hp
  constructor
  · intro h
    have hm : p.1 ∈ deadNames alive t := by simpa using h
    simp only [deadNames, List.mem_map, List.mem_filter] at hm
    obtain ⟨q, ⟨hq, hdq⟩, hname⟩ := hm
    have hqk : q.2.name = q.1 := hwf.1 q hq
    have hqp : q = p := keyInj hwf q hq p hp (by rw [← hqk, hname])
    rwa [hqp] at hdq
  · intro h
    have hm : p.1 ∈ deadNames alive t := by
      simp only [deadNames, List.mem_map, List.mem_filter]
      exact ⟨p, ⟨hp, h⟩, hwf.1 p hp⟩
    simpa using hm

/-- On a well-formed table, `Store.ListProcesses` returns exactly the
live entries' records and persists the table restricted to non-dead
entries. -/
theorem listProcesses_eq {alive : Int → Bool} {fs : Fs} {t : Table}
    (hfs : fs.canonical = StoreFile.table t) (hwf : wfTable t) :
    Store.ListProcesses alive fs =
      (Except.ok (List.map Prod.snd (List.filter (liveKey alive) t)),
       Store.saveProcesses fs
         (List.filter (fun p => !(deadKey alive p)) t)) := by
  rw [Store.ListProcesses, hfs]
  show (Except.ok (Store.pruneLoop alive t t []).2,
        Store.saveProcesses fs (Store.pruneLoop alive t t []).1) = _
  rw [pruneLoop_spec]
  have hft : List.filter (fun p => !((deadNames alive t).contains p.1)) t =
      List.filter (fun p => !(deadKey alive p)) t := by
    apply List.filter_congr
    intro x hx
    have hiff := @deadNames_mem alive t hwf x hx
    cases hc : (deadNames alive t).contains x.1 <;>
      cases hd : deadKey alive x <;> simp_all
  rw [hft]
  simp

/-- Upserting a record leaves the pair with its key in the table. -/
theorem tableInsert_mem (t : Table) (k : String) (v : ProcessInfo) :
    (k, v) ∈ tableInsert t k v := by
  rw [tableInsert]
  split
  · next h =>
    obtain ⟨p, hp⟩ := Option.isSome_iff_exists.mp h
    have hmem := List.mem_of_find?_eq_some hp
    have hk : p.1 = k := by simpa using List.find?_some hp
    have he : (fun q => if q.1 = k then (k, v) else q) p ∈
        List.map (fun q => if q.1 = k then (k, v) else q) t :=
      List.mem_map_of_mem _ hmem
    simpa [hk] using he
  · exact List.mem_append_right _ (List.mem_singleton.mpr rfl)

/-- After a cache insert the key resolves. -/
theorem ptableGet_insert_isSome (t : PTable) (k : String) (v : Process) :
    (ptableGet (ptableInsert t k v) k).isSome = true := by
  have h1 : (List.find? (fun p => p.1 = k) (ptableInsert t k v)).isSome =
      true := by
    rw [List.find?_isSome]
    rw [ptableInsert]
    split
    · next h =>
      obtain ⟨p, hp⟩ := Option.isSome_iff_exists.mp h
      have hmem := List.mem_of_find?_eq_some hp
      have hk : p.1 = k := by simpa using List.find?_some hp
      refine ⟨(k, v), ?_, by simp⟩
      have he : (fun q => if q.1 = k then (k, v) else q) p ∈
          List.map (fun q => if q.1 = k then (k, v) else q) t :=
        List.mem_map_of_mem _ hmem
      simpa [hk] using he
    · exact ⟨(k, v), List.mem_append_right _ (List.mem_singleton.mpr rfl),
        by simp⟩
  rw [ptableGet]
  obtain ⟨r, hr⟩ := Option.isSome_iff_exists.mp h1
  rw [hr]
  rfl

/-- Reconciliation never touches the WaitGroup counter. -/
theorem findProcess_wg (w : World) (s : MState) (name : String) :
    ((Manager.findProcess w s name).2).wg = s.wg := by
  rw [Manager.findProcess]
  repeat' first | rfl | split | dsimp only

/-- Outcomes of the start tail: a failure leaves the state as given, a
success keeps the cache and counter. -/
theorem startFinish_cases (w : World) (s1 : MState) (name workDir : String) :
    ((Manager.startFinish w s1 name workDir).1 ≠ Except.ok () ∧
      (Manager.startFinish w s1 name workDir).2.2 = s1) ∨
    ((Manager.startFinish w s1 name workDir).1 = Except.ok () ∧
      (Manager.startFinish w s1 name workDir).2.2.processes =
        s1.processes ∧
      (Manager.startFinish w s1 name workDir).2.2.wg = s1.wg) := by
  rw [Manager.startFinish]
  repeat' split
  · exact Or.inl ⟨by simp, rfl⟩
  · exact Or.inl ⟨by simp, rfl⟩
  · exact Or.inr ⟨rfl, rfl, rfl⟩

/-- A start either fails or has cached the handle under its name. -/
theorem startProcess_cases (e : StartEnv) (w : World) (s : MState)
    (name command : String) (args : List String) (workDir : String) :
    (Manager.StartProcess e w s name command args workDir).1 ≠
      Except.ok () ∨
    (Manager.StartProcess e w s name command args workDir).2.2.processes =
      ptableInsert s.processes name
        (Manager.startHandle w name command args) := by
  rw [Manager.StartProcess]
  split
  · exact Or.inl (by simp)
  · split
    · exact Or.inl (by simp)
    · rcases startFinish_cases w
          { s with
            processes :=
              ptableInsert s.processes name
                (Manager.startHandle w name command args) }
          name workDir with ⟨h1, _⟩ | ⟨_, h2, _⟩
      · exact Or.inl h1
      · exact Or.inr h2

/-- Starting never touches the WaitGroup counter. -/
theorem startProcess_wg (e : StartEnv) (w : World) (s : MState)
    (name command : String) (args : List String) (workDir : String) :
    (Manager.StartProcess e w s name command args workDir).2.2.wg =
      s.wg := by
  rw [Manager.StartProcess]
  split
  · rfl
  · split
    · rfl
    · rw [Manager.startFinish]
      repeat' first | rfl | split

/-- Stopping never touches the WaitGroup counter. -/
theorem stopProcess_wg (w : World) (s : MState) (name : String) :
    (Manager.StopProcess w s name).state.wg = s.wg := by
  have h := findProcess_wg w s name
  rw [Manager.StopProcess]
  split
  all_goals rename_i heq
  all_goals rw [heq] at h
  all_goals exact h

/-- Docker starts never touch the WaitGroup counter. -/
theorem startDockerProcess_wg (e : StartEnv) (w : World) (s : MState)
    (name containerID image : String) :
    (Manager.StartDockerProcess e w s name containerID image).2.2.wg =
      s.wg := by
  rw [Manager.StartDockerProcess]
  split
  · rfl
  · split
    · rfl
    · rfl

/-- Stopping everything never touches the WaitGroup counter. -/
theorem stopAll_wg (w : World) (s : MState) :
    (Manager.StopAll w s).wg = s.wg := by
  rw [Manager.StopAll]
  generalize List.map Prod.fst s.processes = names
  induction names generalizing s with
  | nil => rfl
  | cons n rest ih =>
    rw [List.foldl_cons]
    rw [ih]
    exact stopProcess_wg w s n

/-- C1: for a name with no in-memory handle, `findProcess` fetches the
record from the store (failing with NotFound if absent), probes the
stored pid with signal 0 (on failure removing the record and failing
NotRunning), re-derives the session name `spin-<name>` and asks tmux for
the pane's current foreground PID (failing NotRunning when no session
exists), and otherwise builds a handle carrying the record's stored
CPU/memory fields, caches it in the manager's map, and returns it. -/
theorem findProcess_reconciliation (w : World) (s : MState) (name : String)
    (hmem : ptableGet s.processes name = none)
    (hdir : w.spinDirOk = true) :
    (∀ t2, s.fs.canonical = StoreFile.table t2 → tableGet t2 name = none →
      Manager.findProcess w s name =
        (Except.error (FindErr.store (StoreErr.notFound name)), s)) ∧
    (∀ info, Store.GetProcess s.fs name = Except.ok info →
      w.alive info.pid = false →
      Manager.findProcess w s name =
        (Except.error FindErr.notRunning,
         { s with fs := (Store.RemoveProcess s.fs name).2 })) ∧
    (∀ info, Store.GetProcess s.fs name = Except.ok info →
      w.alive info.pid = true →
      w.tmuxPanes (sessionNameOf name) = none →
      Manager.findProcess w s name =
        (Except.error FindErr.noTmuxSession, s)) ∧
    (∀ info out pid, Store.GetProcess s.fs name = Except.ok info →
      w.alive info.pid = true →
      w.tmuxPanes (sessionNameOf name) = some out →
      parsePid out = some pid →
      ∃ p, Manager.findProcess w s name =
          (Except.ok p,
           { s with processes := ptableInsert s.processes name p }) ∧
        p.pid = some pid ∧ p.tmuxSession = sessionNameOf name ∧
        p.cpuPercent = info.cpuPercent ∧ p.memoryUsage = info.memoryUsage ∧
        p.memoryPercent = info.memoryPercent ∧
        p.lastUpdated = info.lastUpdated ∧
        p.status = info.status ∧ p.name = info.name) := by
  refine ⟨?_, ?_, ?_, ?_⟩
  · intro t2 hfs htg
    have hget : Store.GetProcess s.fs name =
        Except.error (StoreErr.notFound name) := by
      rw [Store.GetProcess, hfs]
      show (match tableGet t2 name with
        | none => Except.error (StoreErr.notFound name)
        | some info => Except.ok info) = _
      rw [htg]
    simp [Manager.findProcess, hmem, hget]
  · intro info hget halive
    simp [Manager.findProcess, hmem, hget, halive]
  · intro info hget halive hpanes
    simp [Manager.findProcess, hmem, hget, halive, hdir, hpanes]
  · intro info out pid hget halive hpanes hparse
    refine ⟨{ name := info.name, pid := some pid, status := info.status,
              outputFile := spinDirPath ++ "/output/" ++ name ++ ".log",
              tmuxSession := sessionNameOf name,
              cpuPercent := info.cpuPercent, memoryUsage := info.memoryUsage,
              memoryPercent := info.memoryPercent,
              lastUpdated := info.lastUpdated },
           ?_, rfl, rfl, rfl, rfl, rfl, rfl, rfl, rfl⟩
    simp [Manager.findProcess, hmem, hget, halive, hdir, hpanes, hparse]

/-- C1 witness: on a store holding a record whose pid probe fails,
reconciliation evicts the record and fails NotRunning. -/
theorem findProcess_reconciliation_witness :
    Manager.findProcess deadWorld webState "web" =
      (Except.error FindErr.notRunning,
       { webState with fs := (Store.RemoveProcess webState.fs "web").2 }) :=
  (findProcess_reconciliation deadWorld webState "web" rfl rfl).2.1
    webInfo rfl rfl

/-- C2 counterexample: with an empty in-memory cache and a live record
for `web` present in the durable store, `StartProcess` does not return
AlreadyRunning — it proceeds and succeeds, because the duplicate guard
consults only the in-memory map. -/
theorem startProcess_guard_counterexample :
    Store.GetProcess webState.fs "web" = Except.ok webInfo ∧
    liveWorld.alive webInfo.pid = true ∧
    webState.processes = [] ∧
    (Manager.StartProcess {} liveWorld webState "web" "echo" ["hello"]
        "/tmp").1 = Except.ok () := by
  refine ⟨?_, rfl, rfl, ?_⟩
  · rfl
  · rfl

/-- C2 (amended): the duplicate-name guard of `StartProcess` is checked
against the manager's in-memory cache only: a cached name fails
immediately with AlreadyRunning, and a successful start caches the name
so that a second start in the same invocation (no intervening stop)
returns AlreadyRunning; a live record present only in the durable store
does not trigger the guard. -/
theorem startProcess_duplicate_guard (e e2 : StartEnv) (w w2 : World)
    (s : MState) (name command command2 : String)
    (args args2 : List String) (workDir workDir2 : String) :
    ((ptableGet s.processes name).isSome = true →
      Manager.StartProcess e w s name command args workDir =
        (Except.error (StartErr.alreadyRunning name), [], s)) ∧
    ((Manager.StartProcess e w s name command args workDir).1 =
        Except.ok () →
      (Manager.StartProcess e2 w2
          (Manager.StartProcess e w s name command args workDir).2.2
          name command2 args2 workDir2).1 =
        Except.error (StartErr.alreadyRunning name)) := by
  constructor
  · intro h
    rw [Manager.StartProcess, if_pos h]
  · intro h
    rcases startProcess_cases e w s name command args workDir with hbad | hp
    · exact absurd h hbad
    · rw [Manager.StartProcess,
        if_pos (by rw [hp]; exact ptableGet_insert_isSome _ _ _)]

/-- C2 witness: a cached name makes `StartProcess` fail AlreadyRunning. -/
theorem startProcess_duplicate_guard_witness :
    Manager.StartProcess {} deadWorld corruptState "web" "echo" ["hello"]
        "/tmp" =
      (Except.error (StartErr.alreadyRunning "web"), [], corruptState) :=
  (startProcess_duplicate_guard {} {} deadWorld deadWorld corruptState
      "web" "echo" "echo" ["hello"] ["hello"] "/tmp" "/tmp").1 rfl

/-- C4: on a well-formed table, `Store.ListProcesses` removes exactly
the records with `pid > 0` whose signal-0 probe fails, persists the
pruned table before returning, returns a list from which every pruned
record is absent, and returns the surviving records unchanged. -/
theorem listProcesses_self_healing (alive : Int → Bool) (fs : Fs)
    (t : Table) (hfs : fs.canonical = StoreFile.table t)
    (hwf : wfTable t) :
    Store.ListProcesses alive fs =
      (Except.ok (List.map Prod.snd (List.filter (liveKey alive) t)),
       Store.saveProcesses fs
         (List.filter (fun p => !(deadKey alive p)) t)) ∧
    (∀ info ∈ List.map Prod.snd (List.filter (liveKey alive) t),
      info.pid > 0 ∧ alive info.pid = true) ∧
    (∀ p ∈ t, deadKey alive p = true →
      p.2 ∉ List.map Prod.snd (List.filter (liveKey alive) t) ∧
      p ∉ List.filter (fun q => !(deadKey alive q)) t) ∧
    (∀ p ∈ t, liveKey alive p = true →
      p.2 ∈ List.map Prod.snd (List.filter (liveKey alive) t)) := by
  refine ⟨listProcesses_eq hfs hwf, ?_, ?_, ?_⟩
  · intro info hinfo
    obtain ⟨q, hq, rfl⟩ := List.mem_map.mp hinfo
    have hlq := (List.mem_filter.mp hq).2
    simp only [liveKey, Bool.and_eq_true, decide_eq_true_eq] at hlq
    exact hlq
  · intro p hp hdead
    constructor
    · intro hmem
      obtain ⟨q, hq, hqp⟩ := List.mem_map.mp hmem
      have hlq := (List.mem_filter.mp hq).2
      simp only [liveKey, Bool.and_eq_true, decide_eq_true_eq] at hlq
      simp only [deadKey, Bool.and_eq_true, decide_eq_true_eq,
        Bool.not_eq_true'] at hdead
      rw [hqp] at hlq
      rw [hlq.2] at hdead
      exact absurd hdead.2 (by simp)
    · intro hmem
      have hf := (List.mem_filter.mp hmem).2
      rw [hdead] at hf
      simp at hf
  · intro p hp hlive
    exact List.mem_map_of_mem _ (List.mem_filter.mpr ⟨hp, hlive⟩)

/-- C4 witness: with the sole record dead, `ListProcesses` returns the
empty list and persists the empty table; with it alive, the record is
returned and retained. -/
theorem listProcesses_self_healing_witness :
    Store.ListProcesses deadWorld.alive webFs =
      (Except.ok [], Store.saveProcesses webFs []) ∧
    Store.ListProcesses liveWorld.alive webFs =
      (Except.ok [webInfo],
       Store.saveProcesses webFs [("web", webInfo)]) := by
  constructor
  · have h := (listProcesses_self_healing deadWorld.alive webFs
      [("web", webInfo)] rfl
      (by constructor
          · intro p hp
            simp only [List.mem_singleton] at hp
            rw [hp]
            rfl
          · simp)).1
    rw [h]
    rfl
  · have h := (listProcesses_self_healing liveWorld.alive webFs
      [("web", webInfo)] rfl
      (by constructor
          · intro p hp
            simp only [List.mem_singleton] at hp
            rw [hp]
            rfl
          · simp)).1
    rw [h]
    rfl

/-- C5 counterexample: with a cached handle for `web` and an unparseable
store file, the store removal inside `StopProcess` fails, yet
`StopProcess` returns success (the failure is only a warning) — the
store-removal failure is not surfaced as a hard error. -/
theorem stopProcess_swallow_counterexample :
    (Manager.StopProcess deadWorld corruptState "web").result =
      Except.ok () ∧
    (Store.RemoveProcess corruptState.fs "web").1 =
      Except.error StoreErr.unmarshalErr ∧
    (Manager.StopProcess deadWorld corruptState "web").warnings =
      [Warning.removeFailed] ∧
    (Manager.StopProcess deadWorld corruptState "web").state.processes =
      [] := by
  refine ⟨rfl, rfl, ?_, rfl⟩
  rfl

/-- C5 (amended): whenever `StopProcess` resolves a handle, it returns
success, evicts the cache entry and applies the store removal's
file-system effect; a failed backend session-kill and a failed store
removal are both only warned about. -/
theorem stopProcess_best_effort (w : World) (s : MState) (name : String)
    (p : Process) (s1 : MState)
    (h : Manager.findProcess w s name = (Except.ok p, s1)) :
    (Manager.StopProcess w s name).result = Except.ok () ∧
    (Manager.StopProcess w s name).state.processes =
      ptableDelete s1.processes name ∧
    (Manager.StopProcess w s name).state.fs =
      (Store.RemoveProcess s1.fs name).2 ∧
    (p.tmuxSession ≠ "" → w.killSessionOk p.tmuxSession = false →
      Warning.killSessionFailed ∈
        (Manager.StopProcess w s name).warnings) ∧
    (∀ er, (Store.RemoveProcess s1.fs name).1 = Except.error er →
      Warning.removeFailed ∈ (Manager.StopProcess w s name).warnings) := by
  refine ⟨?_, ?_, ?_, ?_, ?_⟩
  · simp only [Manager.StopProcess, h]
  · simp only [Manager.StopProcess, h]
  · simp only [Manager.StopProcess, h]
  · intro hts hko
    simp only [Manager.StopProcess, h]
    simp [hts, hko]
  · intro er her
    simp only [Manager.StopProcess, h]
    simp [her]

/-- C5 witness: the amended theorem applied at a state whose cache holds
`web` and whose store file is unparseable. -/
theorem stopProcess_best_effort_witness :
    (Manager.StopProcess deadWorld corruptState "web").result =
      Except.ok () ∧
    Warning.removeFailed ∈
      (Manager.StopProcess deadWorld corruptState "web").warnings :=
  ⟨(stopProcess_best_effort deadWorld corruptState "web" webHandle
      corruptState rfl).1,
   (stopProcess_best_effort deadWorld corruptState "web" webHandle
      corruptState rfl).2.2.2.2 StoreErr.unmarshalErr rfl⟩

/-- C8: in every reachable manager state the WaitGroup counter is zero —
no operation ever increments it — so `WaitForAll`'s wait and the final
wait of `StopAll` return immediately. -/
theorem waitForAll_returns_immediately (s : MState) (h : Reachable s) :
    s.wg = 0 ∧ Manager.waitReturnsImmediately s ∧
    (∀ w, Manager.waitReturnsImmediately (Manager.StopAll w s)) := by
  have key : s.wg = 0 := by
    induction h with
    | init fs => rfl
    | find w name hr ih => rw [findProcess_wg]; exact ih
    | start e w name command args workDir hr ih =>
      rw [startProcess_wg]; exact ih
    | stop w name hr ih => rw [stopProcess_wg]; exact ih
    | stopAll w hr ih => rw [stopAll_wg]; exact ih
    | startDocker e w name cid img hr ih =>
      rw [startDockerProcess_wg]; exact ih
  refine ⟨key, key, fun w => ?_⟩
  rw [Manager.waitReturnsImmediately, stopAll_wg]
  exact key

/-- C8 witness: the state reached by one reconciliation from a fresh
manager still has a zero counter. -/
theorem waitForAll_returns_immediately_witness :
    Manager.waitReturnsImmediately
      (Manager.findProcess liveWorld webState "web").2 :=
  (waitForAll_returns_immediately
      (Manager.findProcess liveWorld webState "web").2
      (Reachable.find liveWorld "web" (Reachable.init webFs))).2.1

/-- C10: `Store.ListProcesses` never returns a record whose pid is not
positive while leaving such records in the persisted table;
`StartDockerProcess` persists a record whose pid is the zero value; and
`Store.Cleanup` deletes every such pid-less record outright. -/
theorem pidless_records_invisible (alive : Int → Bool) (fs : Fs)
    (t : Table) (e : StartEnv) (w : World) (s : MState)
    (name cid img : String) :
    (fs.canonical = StoreFile.table t → wfTable t →
      ∀ res fs2, Store.ListProcesses alive fs = (Except.ok res, fs2) →
        (∀ info ∈ res, info.pid > 0) ∧
        (∀ p ∈ t, p.2.pid ≤ 0 →
          fs2.canonical =
            StoreFile.table
              (List.filter (fun q => !(deadKey alive q)) t) ∧
          p ∈ List.filter (fun q => !(deadKey alive q)) t)) ∧
    (ptableGet s.processes name = none →
      Manager.dockerChecks e w = none →
      (Manager.StartDockerProcess e w s name cid img).1 = Except.ok () ∧
      ∃ t2,
        (Manager.StartDockerProcess e w s name cid img).2.2.fs.canonical =
          StoreFile.table t2 ∧
        (name, Manager.dockerInfo w name cid img) ∈ t2 ∧
        (Manager.dockerInfo w name cid img).pid = 0 ∧
        (Manager.dockerInfo w name cid img).containerID = cid ∧
        (Manager.dockerInfo w name cid img).image = img) ∧
    (fs.canonical = StoreFile.table t →
      (Store.Cleanup alive fs).2.canonical =
        StoreFile.table
          (List.filter
            (fun p => decide (p.2.pid > 0) && alive p.2.pid) t) ∧
      ∀ p ∈ t, p.2.pid ≤ 0 →
        p ∉ List.filter
          (fun p => decide (p.2.pid > 0) && alive p.2.pid) t) := by
  refine ⟨?_, ?_, ?_⟩
  · intro hfs hwf res fs2 hlist
    have heq := @listProcesses_eq alive fs t hfs hwf
    rw [heq] at hlist
    injection hlist with hres1 hfs2
    have hres := Except.ok.inj hres1
    constructor
    · intro info hinfo
      rw [← hres] at hinfo
      obtain ⟨q, hq, rfl⟩ := List.mem_map.mp hinfo
      have hlq := (List.mem_filter.mp hq).2
      simp only [liveKey, Bool.and_eq_true, decide_eq_true_eq] at hlq
      exact hlq.1
    · intro p hp hple
      refine ⟨by rw [← hfs2]; rfl, ?_⟩
      refine List.mem_filter.mpr ⟨hp, ?_⟩
      simp only [deadKey, Bool.not_eq_eq_eq_not, Bool.not_true,
        Bool.and_eq_false_iff, decide_eq_false_iff_not]
      exact Or.inl (not_lt.mpr hple)
  · intro hmem hchecks
    rw [Manager.StartDockerProcess, if_neg (by rw [hmem]; simp), hchecks]
    cases hload : Store.loadProcesses s.fs.canonical with
    | error e2 =>
      refine ⟨rfl,
        tableInsert [] name (Manager.dockerInfo w name cid img),
        ?_, tableInsert_mem _ _ _, rfl, rfl, rfl⟩
      simp [Manager.startDockerFinish, Store.SaveProcess, hload,
        Store.saveProcesses, Store.renameTmp, Manager.dockerInfo]
    | ok ps =>
      refine ⟨rfl,
        tableInsert ps name (Manager.dockerInfo w name cid img),
        ?_, tableInsert_mem _ _ _, rfl, rfl, rfl⟩
      simp [Manager.startDockerFinish, Store.SaveProcess, hload,
        Store.saveProcesses, Store.renameTmp, Manager.dockerInfo]
  · intro hfs
    refine ⟨by rw [Store.Cleanup, hfs]; rfl, ?_⟩
    intro p hp hple hmemf
    have hfp := (List.mem_filter.mp hmemf).2
    simp only [Bool.and_eq_true, decide_eq_true_eq] at hfp
    exact absurd hfp.1 (not_lt.mpr hple)

/-- C10 witness: a docker record saved with zero pid lands in the store,
and the sole pid-less record is invisible to listing yet retained, while
Cleanup drops it. -/
theorem pidless_records_invisible_witness :
    (Manager.StartDockerProcess {} liveWorld webState "db" "abc123"
        "postgres:15").1 = Except.ok () ∧
    (Manager.dockerInfo liveWorld "db" "abc123" "postgres:15").pid = 0 :=
  ⟨((pidless_records_invisible liveWorld.alive webFs [("web", webInfo)]
      {} liveWorld webState "db" "abc123" "postgres:15").2.1 rfl rfl).1,
   rfl⟩

end Spin
